import Mathlib

/-!
Shallow embedding of the scroll/selection/filter/sort core of the
`crapmodels` repository (packages `tm` and `table`), together with proofs
and refutations of the specification's claims about it.

Machine integers (Go `int`) are embedded as `Int`.  Lists embed Go slices;
Go `map[int]T` values built by insertion are embedded as association lists
with the zero-value default of Go map reads.  All lipgloss style `Render`
calls are embedded as the identity on strings: they only decorate output
and the specification treats styling as an external collaborator.
-/

/-! ### Go string helpers (package `strings` and rune slicing) -/

/-- Embedding of Go `strings.ToLower` restricted to the ASCII case mapping
(`Char.toLower`); the claims proved below only use ASCII content. -/
def strToLower (s : String) : String :=
  String.mk (s.data.map Char.toLower)

/-- Helper for `strContains`: does `needle` occur at the start of the string? -/
def hasPre : List Char → List Char → Bool
  | [], _ => true
  | _ :: _, [] => false
  | a :: as, b :: bs => a == b && hasPre as bs

/-- Helper for `strContains`: does `needle` occur anywhere in the string? -/
def containsSub (needle : List Char) : List Char → Bool
  | [] => hasPre needle []
  | c :: t => hasPre needle (c :: t) || containsSub needle t

/-- Embedding of Go `strings.Contains(s, sub)`. -/
def strContains (s sub : String) : Bool :=
  containsSub sub.data s.data

/-- Embedding of Go `strings.Split(s, sep)` for a one-character separator,
on rune lists.  `goSplit sep l` never returns the empty list. -/
def goSplit (sep : Char) : List Char → List (List Char)
  | [] => [[]]
  | c :: rest =>
    match goSplit sep rest with
    | [] => [[]]
    | g :: gs => if c = sep then [] :: g :: gs else (c :: g) :: gs

/-- Embedding of Go slicing `w[i:j]` on rune slices.  Go panics when the
bounds are out of range; every use below is in range, where `take`/`drop`
agree with Go. -/
def goSlice (w : List Char) (i j : Nat) : List Char :=
  (w.drop i).take (j - i)

/-! ### The external word wrapper (`muesli/reflow/wordwrap`)

`tm.parseContent` calls `wordwrap.String(line, width-2)` from the external
`muesli/reflow` library.  The writer is embedded below from that library's
algorithm: it buffers the current word and pending whitespace, flushes them
to the output, and inserts a line break (discarding the pending whitespace)
when the next word would overstep the limit but still fits on a line of its
own; words wider than the limit overflow unbroken.  Every rune counts one
cell wide and ANSI escape tracking is not modelled (no claim below involves
escape sequences or wide runes). -/

structure WwState where
  buf : List Char
  lineLen : Int
  space : List Char
  word : List Char
deriving DecidableEq

/-- Embedding of the wordwrap writer's `addSpace`: flush pending whitespace. -/
def wwAddSpace (s : WwState) : WwState :=
  { s with
    lineLen := s.lineLen + s.space.length
    buf := s.buf ++ s.space
    space := [] }

/-- Embedding of the wordwrap writer's `addWord`: flush pending whitespace
and then the buffered word. -/
def wwAddWord (s : WwState) : WwState :=
  if s.word = [] then s
  else
    let s1 := wwAddSpace s
    { s1 with
      lineLen := s1.lineLen + s1.word.length
      buf := s1.buf ++ s1.word
      word := [] }

/-- Embedding of the wordwrap writer's `addNewLine`: emit a break and drop
the pending whitespace. -/
def wwAddNewLine (s : WwState) : WwState :=
  { s with buf := s.buf ++ ['\n'], lineLen := 0, space := [] }

/-- One step of the wordwrap writer on an input rune: a newline is kept, a
whitespace rune ends the current word, `-` is a breakpoint, and any other
rune extends the word, breaking the line first when the word would
overstep the limit while still being narrower than it. -/
def wwStep (limit : Int) (s : WwState) (c : Char) : WwState :=
  if c = '\n' then wwAddNewLine (wwAddWord s)
  else if c.isWhitespace then
    let s1 := wwAddWord s
    { s1 with space := s1.space ++ [c] }
  else if c = '-' then
    let s1 := wwAddWord (wwAddSpace s)
    { s1 with buf := s1.buf ++ [c], lineLen := s1.lineLen + 1 }
  else
    let s1 := { s with word := s.word ++ [c] }
    if s1.lineLen + (s1.space.length : Int) + (s1.word.length : Int) > limit
        ∧ (s1.word.length : Int) < limit
    then wwAddNewLine s1
    else s1

/-- Embedding of `wordwrap.String(s, limit)`: run the writer over the runes
and close it (a final `addWord`).  A limit of `0` is a pass-through. -/
def wordwrapRun (limit : Int) (s : List Char) : List Char :=
  if limit = 0 then s
  else (wwAddWord (s.foldl (wwStep limit) ⟨[], 0, [], []⟩)).buf

/-! ### The hard-split loop of `tm.parseContent`

`parseContent` (src/tm/textModel.go, lines 483-496) re-splits each wrapped
line whose rune count exceeds `width-2`, taking chunks of exactly
`width-2` runes.  The Go loop is
`for i := 0; i < len(w)-1-m.width-2+5; i += (m.width - 2)` whose bound
simplifies to `i < len(w)-(m.width-2)`, with `z` remembering the last `i`;
the tail `w[z+W:]` is appended after the loop. -/

/-- Embedding of the chunking loop; returns the produced chunks and the
final value of `z`.  For `W = 0` the Go loop would not terminate, so the
body requires `0 < W`; no theorem below touches that case. -/
def hardSplitLoop (W : Nat) (w : List Char) (i z : Nat) : List (List Char) × Nat :=
  if _h : 0 < W ∧ i < w.length - W then
    let r := hardSplitLoop W w (i + W) i
    (goSlice w i (i + W) :: r.1, r.2)
  else ([], z)
termination_by w.length - i
decreasing_by omega

/-- Embedding of the per-wrapped-line body of `parseContent`: a line of
more than `W` runes is hard-split, a shorter line is kept whole. -/
def hardSplitPiece (W : Int) (wl : List Char) : List (List Char) :=
  if (wl.length : Int) - 1 ≥ W then
    let r := hardSplitLoop W.toNat wl 0 0
    r.1 ++ [wl.drop (r.2 + W.toNat)]
  else [wl]

/-- Display lines that `parseContent` produces for one content row at inner
width `W = width - 2`: wordwrap the row, split the result on newlines, and
hard-split each piece. -/
def rowDisplayLines (W : Int) (line : List Char) : List (List Char) :=
  ((goSplit '\n' (wordwrapRun W line)).map (hardSplitPiece W)).flatten

/-! ### The line-list widget `tm.TextModel`

Style and key-binding fields are omitted: they never influence the
geometry the claims are about (styles render as the identity here). -/

structure TextModel where
  width : Int
  height : Int
  content : List String
  parsedContent : List String
  selectedLine : Int
  scrolledTop : Int
  selectedParsedLines : List Int
  selectableParsedLinesMap : List (Int × Int)
  parsedSelectableLinesMap : List (Int × List Int)
deriving DecidableEq

/-- Fresh `TextModel` as built by `NewTextModel()` (only geometry fields). -/
def TextModel.new : TextModel :=
  { width := 0, height := 0, content := [], parsedContent := []
    selectedLine := 0, scrolledTop := 0, selectedParsedLines := []
    selectableParsedLinesMap := [], parsedSelectableLinesMap := [] }

/-- Row loop of `tm.parseContent` (src/tm/textModel.go, lines 478-512):
produces, in order, the wrapped display lines, the display-line indices of
the selected row, and both row/display-line index maps.  `lineNum` is the
current row index and `acc` the running display-line counter
(`parsedContentLineNum`). -/
def parseRows (W : Int) (selected : Int) :
    List String → Int → Int →
    List String × List Int × List (Int × Int) × List (Int × List Int)
  | [], _, _ => ([], [], [], [])
  | line :: rest, lineNum, acc =>
    let ws2 := rowDisplayLines W line.data
    let idxs : List Int := (List.range ws2.length).map (fun i => acc + (i : Int))
    let r := parseRows W selected rest (lineNum + 1) (acc + (ws2.length : Int))
    (ws2.map String.mk ++ r.1,
     (if lineNum = selected then idxs else []) ++ r.2.1,
     idxs.map (fun i => (i, lineNum)) ++ r.2.2.1,
     (lineNum, idxs) :: r.2.2.2)

/-- Embedding of `tm.parseContent` (src/tm/textModel.go, lines 467-515).
The guard is the literal Go test `m.width == 0 || m.height == 0`. -/
def TextModel.parseContent (m : TextModel) : TextModel :=
  if m.width = 0 ∨ m.height = 0 then m
  else
    let r := parseRows (m.width - 2) m.selectedLine m.content 0 0
    { m with
      parsedContent := r.1
      selectedParsedLines := r.2.1
      selectableParsedLinesMap := r.2.2.1
      parsedSelectableLinesMap := r.2.2.2 }

/-- Embedding of `tm.SetSelectedLine` (src/tm/textModel.go, lines 595-612).
Go indexes `selectedParsedLines[len-1]` and `[0]`, panicking on an empty
slice; the embedding reads them with default `0`.  Every theorem below
only applies it where the slice is non-empty. -/
def TextModel.SetSelectedLine (m : TextModel) (numLine : Int) : TextModel :=
  let m1 := TextModel.parseContent { m with selectedLine := numLine }
  let last := m1.selectedParsedLines.getLastD 0
  let first := m1.selectedParsedLines.headD 0
  let m2 :=
    if last > m1.scrolledTop + m1.height - (m1.selectedParsedLines.length : Int) - 2
    then { m1 with scrolledTop := last - m1.height + 3 } else m1
  let m3 := if first < m2.scrolledTop then { m2 with scrolledTop := first } else m2
  if m3.scrolledTop < 0 then { m3 with scrolledTop := 0 } else m3

/-- Embedding of `tm.AppendContent` (src/tm/textModel.go, lines 419-437). -/
def TextModel.AppendContent (m : TextModel) (text : List String) : TextModel :=
  let move := m.selectedLine = (m.content.length : Int) - 1
  let m1 :=
    if move then { m with selectedLine := (m.content.length : Int) - 1 + text.length }
    else m
  let m2 := TextModel.parseContent { m1 with content := m1.content ++ text }
  if move ∧ (m2.parsedContent.length : Int) > m2.height - 2
  then { m2 with scrolledTop := (m2.parsedContent.length : Int) - m2.height + 2 }
  else m2

/-- Embedding of `tm.SetContent` (src/tm/textModel.go, lines 446-455). -/
def TextModel.SetContent (m : TextModel) (text : List String) : TextModel :=
  TextModel.parseContent
    { m with selectedLine := 0, scrolledTop := 0, content := text }

/-! ### The filter/sort table widget (`table.TableModel`, src/unnamed/part_000)

Style and key-binding fields are again omitted.  The Czech collator
`collate.New(language.Czech)` of the external `golang.org/x/text` library
is embedded as the lexicographic linear order on strings: the claims
proved about sorting depend only on the comparator being a linear order,
which holds for the real collator as well. -/

/-- Embedding of the Go sort direction type (constructor names as in the
source, including its `SortAscendig` spelling). -/
inductive SortOrder where
  | SortAscendig
  | SortDescending
  | SortUnsorted
deriving DecidableEq

/-- Go cell access `row[col]`.  Go panics when `col` is out of range; the
embedding returns `""` there and no theorem below relies on that case. -/
def getCell (row : List String) (col : Int) : String :=
  if 0 ≤ col then row.getD col.toNat "" else ""

/-- Row comparison used by `sortFilteredContent`: the comparator returns
`c.CompareString(a[col], b[col])` ascending and with the arguments swapped
descending; sorting ascending by a comparator orders rows by `≤` on the
compared cells. -/
def rowLe (col : Int) (ord : SortOrder) (a b : List String) : Prop :=
  match ord with
  | .SortAscendig => getCell a col ≤ getCell b col
  | .SortDescending => getCell b col ≤ getCell a col
  | .SortUnsorted => True

instance rowLe.decRel (col : Int) : (ord : SortOrder) → DecidableRel (rowLe col ord)
  | .SortAscendig => fun a b => inferInstanceAs (Decidable (getCell a col ≤ getCell b col))
  | .SortDescending => fun a b => inferInstanceAs (Decidable (getCell b col ≤ getCell a col))
  | .SortUnsorted => fun _ _ => inferInstanceAs (Decidable True)

structure TableModel where
  width : Int
  height : Int
  headers : List String
  content : List (List String)
  selectedLine : Int
  scrolledTop : Int
  filter : String
  filterColums : List Int
  filteredContent : List (List String)
  sortByCol : Int
  sortOrder : SortOrder
  sortedContent : List (List String)
deriving DecidableEq

/-- Inner column loop of `table.filterContent` (src/unnamed/part_000,
lines 817-823): scan the configured filter columns, breaking at the first
column whose lowercased cell contains the lowercased filter. -/
def rowMatch (line : List String) (flt : String) : List Int → Bool
  | [] => false
  | c :: cs =>
    if strContains (strToLower (getCell line c)) flt then true
    else rowMatch line flt cs

/-- Row loop of `table.filterContent`: keep matching rows in order. -/
def filterLoop (flt : String) (cols : List Int) : List (List String) → List (List String)
  | [] => []
  | line :: rest =>
    if rowMatch line flt cols then line :: filterLoop flt cols rest
    else filterLoop flt cols rest

/-- Embedding of `table.filterContent` (src/unnamed/part_000, lines
807-826): an empty filter returns the raw content unchanged. -/
def TableModel.filterContent (m : TableModel) : List (List String) :=
  if m.filter = "" then m.content
  else filterLoop (strToLower m.filter) m.filterColums m.content

/-- Embedding of `table.sortFilteredContent` (src/unnamed/part_000, lines
786-805): a copy of the filtered rows, sorted by the comparator unless the
direction is `SortUnsorted`.  Go's `slices.SortFunc` is an unspecified
(not necessarily stable) comparison sort; it is embedded as insertion
sort, which agrees with it on every list whose compared cells are
pairwise distinct. -/
def TableModel.sortFilteredContent (m : TableModel) : List (List String) :=
  if m.sortOrder = .SortUnsorted then m.filteredContent
  else m.filteredContent.insertionSort (rowLe m.sortByCol m.sortOrder)

/-- Embedding of `table.Sort` (src/unnamed/part_000, lines 587-601).  The
guard is the literal Go test `col > len(m.headers)-1`. -/
def TableModel.Sort (m : TableModel) (col : Int) (dir : SortOrder) : TableModel :=
  if col > (m.headers.length : Int) - 1 then m
  else
    let m1 := { m with sortByCol := col, sortOrder := dir }
    if dir = .SortUnsorted then { m1 with sortedContent := m1.filteredContent }
    else { m1 with sortedContent := m1.sortFilteredContent }

/-- Embedding of `table.SetFilter` (src/unnamed/part_000, lines 610-618). -/
def TableModel.SetFilter (m : TableModel) (filter : String) : TableModel :=
  let m1 := { m with filter := filter }
  let m2 := { m1 with filteredContent := m1.filterContent }
  let m3 := { m2 with sortedContent := m2.sortFilteredContent }
  { m3 with scrolledTop := 0, selectedLine := 0 }

/-- Embedding of `table.SetContent` (src/unnamed/part_000, lines 636-642).
Note that it does not touch `scrolledTop` or `selectedLine`. -/
def TableModel.SetContent (m : TableModel) (rows : List (List String)) : TableModel :=
  let m1 := { m with content := rows }
  let m2 := { m1 with filteredContent := m1.filterContent }
  { m2 with sortedContent := m2.sortFilteredContent }

/-- Embedding of `table.AppendContent` (src/unnamed/part_000, lines
656-662). -/
def TableModel.AppendContent (m : TableModel) (rows : List (List String)) : TableModel :=
  let m1 := { m with content := m.content ++ rows }
  let m2 := { m1 with filteredContent := m1.filterContent }
  { m2 with sortedContent := m2.sortFilteredContent }

/-- Embedding of `table.SetSelectedLine` (src/unnamed/part_000, lines
684-700). -/
def TableModel.SetSelectedLine (m : TableModel) (line : Int) : TableModel :=
  if line < (m.filteredContent.length : Int) ∧ 0 ≤ line then
    let s :=
      if line ≥ m.scrolledTop + (m.height - 4) then
        if m.filter = "" then line - (m.height - 4) else line - (m.height - 5)
      else if line < m.scrolledTop then line
      else m.scrolledTop
    { m with selectedLine := line, scrolledTop := s }
  else m

/-- Embedding of `table.SelectLastLine` (src/unnamed/part_000, lines
709-713). -/
def TableModel.SelectLastLine (m : TableModel) : TableModel :=
  m.SetSelectedLine ((m.filteredContent.length : Int) - 1)

/-- Embedding of `table.ViewScroll` (src/unnamed/part_000, lines 720-732):
the move is applied only when the target stays within bounds. -/
def TableModel.ViewScroll (m : TableModel) (num : Int) : TableModel :=
  if 0 < num then
    if m.scrolledTop + num ≤ (m.filteredContent.length : Int) - m.height + 3
    then { m with scrolledTop := m.scrolledTop + num } else m
  else if num < 0 then
    if 0 ≤ m.scrolledTop + num
    then { m with scrolledTop := m.scrolledTop + num } else m
  else m

/-- Effective height of the table widget: the filter bar, when shown,
takes one row (`height--` at the top of `View` and `PageScroll`). -/
def TableModel.effHeight (m : TableModel) : Int :=
  if m.filter = "" then m.height else m.height - 1

/-- Embedding of `table.PageScroll` (src/unnamed/part_000, lines 739-776),
with the Go statement order: shift, move the selection to the page edge,
clamp at the top, then clamp at the bottom (re-deriving the selection from
the clamped scroll position). -/
def TableModel.PageScroll (m : TableModel) (num : Int) (moveSelected : Bool) : TableModel :=
  let height := m.effHeight
  let s1 := m.scrolledTop + (height - 3) * num
  let sel1 :=
    if 0 < num then (if moveSelected then s1 + height - 4 else m.selectedLine)
    else if num < 0 then (if moveSelected then s1 else m.selectedLine)
    else m.selectedLine
  let s2 := if s1 < 0 then 0 else s1
  let sel2 := if s1 < 0 then (if moveSelected then 0 else sel1) else sel1
  let lenContent : Int := m.filteredContent.length
  if s2 > lenContent - height - 3 then
    let s3 := max (lenContent - height + 3) 0
    let sel3 :=
      if moveSelected then
        let sb := s3 + height - 4
        if sb > lenContent then lenContent - 1 else sb
      else sel2
    { m with scrolledTop := s3, selectedLine := sel3 }
  else
    { m with scrolledTop := s2, selectedLine := sel2 }

/-! ### Derived notions used by the claims -/

/-- Public operations of the table widget quantified over by the scroll
bound claim (`SetContent` is deliberately not among them; see the
counterexample below). -/
inductive TOp where
  | setSelectedLine (line : Int)
  | selectLastLine
  | viewScroll (num : Int)
  | pageScroll (num : Int) (moveSelected : Bool)
  | setFilter (text : String)
  | appendContent (rows : List (List String))

/-- Dispatch one public operation. -/
def TableModel.applyOp (m : TableModel) : TOp → TableModel
  | .setSelectedLine line => m.SetSelectedLine line
  | .selectLastLine => m.SelectLastLine
  | .viewScroll num => m.ViewScroll num
  | .pageScroll num ms => m.PageScroll num ms
  | .setFilter text => m.SetFilter text
  | .appendContent rows => m.AppendContent rows

/-- Run a sequence of public operations left to right. -/
def TableModel.applyOps (m : TableModel) (ops : List TOp) : TableModel :=
  ops.foldl TableModel.applyOp m

/-- Consistency of the derived row sequences with their sources: the
filtered rows are the filter of the raw content and the sorted rows are a
permutation-sized copy of the filtered rows.  Every constructor-built
model satisfies it and every operation re-establishes it. -/
def TableModel.wellFormed (m : TableModel) : Prop :=
  m.filteredContent = m.filterContent ∧
  m.sortedContent.length = m.filteredContent.length

/-- Scroll bound of the table widget: `View` shows `effHeight - 3` rows,
so the largest useful `scrolledTop` is `rows - (effHeight - 3)`. -/
def TableModel.scrollInRange (m : TableModel) : Prop :=
  0 ≤ m.scrolledTop ∧
  m.scrolledTop ≤ max 0 ((m.filteredContent.length : Int) - (m.effHeight - 3))

/-- Invariant carried through every operation sequence of the scroll
bound claim. -/
def TableModel.TInv (m : TableModel) : Prop :=
  m.wellFormed ∧ m.scrollInRange

instance (m : TableModel) : Decidable m.TInv := by
  unfold TableModel.TInv TableModel.wellFormed TableModel.scrollInRange
  infer_instance

/-- Selection visibility for the table widget: the selected row index lies
inside the window of rows that `View` displays,
`[scrolledTop, scrolledTop + (effHeight - 3))`. -/
def TableModel.selectionVisible (m : TableModel) : Prop :=
  m.scrolledTop ≤ m.selectedLine ∧
  m.selectedLine < m.scrolledTop + (m.effHeight - 3)

/-! ### Concrete models for witnesses and counterexamples -/

/-- Table model as built by `NewTableModel(WithHeaders("h"),
WithContent(rows...))` with ten identical one-cell rows, sized 30×5. -/
def tmTen : TableModel :=
  { width := 30, height := 5, headers := ["h"]
    content := List.replicate 10 ["x"]
    selectedLine := 0, scrolledTop := 0
    filter := "", filterColums := [0]
    filteredContent := List.replicate 10 ["x"]
    sortByCol := 0, sortOrder := .SortUnsorted
    sortedContent := List.replicate 10 ["x"] }

/-- Table model with two rows at height 3: the viewport cannot show any
content row (`View` lists rows `scrolledTop ≤ i < scrolledTop+height-3`). -/
def tmShort : TableModel :=
  { width := 30, height := 3, headers := ["h"]
    content := [["a"], ["b"]]
    selectedLine := 0, scrolledTop := 0
    filter := "", filterColums := [0]
    filteredContent := [["a"], ["b"]]
    sortByCol := 0, sortOrder := .SortUnsorted
    sortedContent := [["a"], ["b"]] }

/-- Table model with three rows carrying pairwise distinct keys in
column 0, used for the sort reversal witness. -/
def tmSortable : TableModel :=
  { width := 30, height := 10, headers := ["n", "v"]
    content := [["b", "1"], ["a", "2"], ["c", "3"]]
    selectedLine := 0, scrolledTop := 0
    filter := "", filterColums := [0, 1]
    filteredContent := [["b", "1"], ["a", "2"], ["c", "3"]]
    sortByCol := 0, sortOrder := .SortUnsorted
    sortedContent := [["b", "1"], ["a", "2"], ["c", "3"]] }

/-- Line-list model with one hundred one-cell rows at size 10×10, the
configuration of the spec's Scenario C. -/
def textHundred : TextModel :=
  { TextModel.new with
    width := 10, height := 10, content := List.replicate 100 "x" }

/-- Line-list model whose single row wraps at width 4 (inner width 2),
dropping the space between the two words. -/
def textSpaced : TextModel :=
  { TextModel.new with width := 4, height := 10, content := ["ab cd"] }

/-- Line-list model with a negative height and a stale (empty) display
state: the parse guard only tests for dimension zero. -/
def textNegHeight : TextModel :=
  { TextModel.new with width := 5, height := -1, content := ["ab"] }

/-- Line-list model whose selection sits on the last of its two rows. -/
def textTail : TextModel :=
  { TextModel.new with
    width := 10, height := 4, content := ["a", "b"], selectedLine := 1 }

/-! ### Basic lemmas about `parseContent` -/

theorem TextModel.parseContent_scrolledTop (m : TextModel) :
    m.parseContent.scrolledTop = m.scrolledTop := by
  unfold TextModel.parseContent; split <;> rfl

theorem TextModel.parseContent_selectedLine (m : TextModel) :
    m.parseContent.selectedLine = m.selectedLine := by
  unfold TextModel.parseContent; split <;> rfl

theorem TextModel.parseContent_height (m : TextModel) :
    m.parseContent.height = m.height := by
  unfold TextModel.parseContent; split <;> rfl

theorem TextModel.parseContent_content (m : TextModel) :
    m.parseContent.content = m.content := by
  unfold TextModel.parseContent; split <;> rfl

/-- C9 counterexample: with height `-1` (and positive width) the claim
demands a no-op that retains the previous display state, but
`parseContent` recomputes the display state because the Go guard only
tests `width == 0 || height == 0`. -/
theorem parseContent_negative_height_not_noop :
    textNegHeight.parseContent ≠ textNegHeight := by decide

/-- C9 (amended): the wrapping step is a no-op exactly under the literal
guard `width = 0 ∨ height = 0`, returning the model unchanged. -/
theorem parseContent_noop_of_zero_dimension (m : TextModel)
    (h : m.width = 0 ∨ m.height = 0) : m.parseContent = m := by
  unfold TextModel.parseContent
  rw [if_pos h]

/-- C9 witness: the fresh model has zero width, and parsing leaves it
unchanged. -/
theorem parseContent_noop_witness :
    (TextModel.new.width = 0 ∨ TextModel.new.height = 0) ∧
    TextModel.new.parseContent = TextModel.new :=
  ⟨Or.inl rfl, parseContent_noop_of_zero_dimension TextModel.new (Or.inl rfl)⟩

/-! ### C4: column validation of `Sort` -/

/-- C4 counterexample: `-1` is outside the valid header range `[0, 1)` of
`tmTen`, yet `Sort(-1, SortUnsorted)` is not rejected — it records
`sortByCol = -1`, changing the model state. -/
theorem sort_negative_column_changes_state :
    tmTen.Sort (-1) .SortUnsorted ≠ tmTen := by decide

/-- C4 (amended): `Sort` rejects only columns above the header range
(`col > len(headers)-1`), leaving the entire model unchanged; a negative
column is not rejected. -/
theorem sort_rejects_high_column (m : TableModel) (col : Int) (dir : SortOrder)
    (h : (m.headers.length : Int) - 1 < col) : m.Sort col dir = m := by
  unfold TableModel.Sort
  rw [if_pos h]

/-- C4 witness: column 5 is above the single-header range of `tmTen` and
the call leaves the model unchanged. -/
theorem sort_rejects_high_column_witness :
    ((tmTen.headers.length : Int) - 1 < 5) ∧ tmTen.Sort 5 .SortAscendig = tmTen :=
  ⟨by decide, sort_rejects_high_column tmTen 5 .SortAscendig (by decide)⟩

/-! ### C5: `ViewScroll` moves exactly or not at all -/

/-- C5 counterexample: from the top of `tmTen` (ten rows, height 5) a
scroll by 100 would pass the bottom boundary; the claim predicts a clamp
to the boundary, but `ViewScroll` rejects the move and `scrolledTop`
stays 0 — in particular it does not land on the claimed clamped value
`min (0+100) (max 0 (10-5))`. -/
theorem viewScroll_overshoot_not_clamped :
    (tmTen.ViewScroll 100).scrolledTop = tmTen.scrolledTop ∧
    (tmTen.ViewScroll 100).scrolledTop ≠
      min (tmTen.scrolledTop + 100)
        (max 0 ((tmTen.filteredContent.length : Int) - tmTen.height)) := by decide

/-- C5 (amended): `ViewScroll(num)` never changes the selected line, and
either shifts `scrolledTop` by exactly `num` — only when the result stays
within bounds — or leaves it unchanged; an overshooting move is rejected
rather than clamped to the boundary. -/
theorem viewScroll_exact_or_noop (m : TableModel) (num : Int) :
    (m.ViewScroll num).selectedLine = m.selectedLine ∧
    ((m.ViewScroll num).scrolledTop = m.scrolledTop + num ∨
      (m.ViewScroll num).scrolledTop = m.scrolledTop) ∧
    (0 < num →
      (m.ViewScroll num).scrolledTop ≤
        max m.scrolledTop ((m.filteredContent.length : Int) - m.height + 3)) ∧
    (num < 0 → min m.scrolledTop 0 ≤ (m.ViewScroll num).scrolledTop) := by
  unfold TableModel.ViewScroll
  split_ifs <;> simp <;> omega

/-- C5 witness: a downward scroll inside `tmTen` keeps the selection and
stays below the bound. -/
theorem viewScroll_exact_or_noop_witness :
    (tmTen.ViewScroll 2).scrolledTop ≤
      max tmTen.scrolledTop ((tmTen.filteredContent.length : Int) - tmTen.height + 3) :=
  (viewScroll_exact_or_noop tmTen 2).2.2.1 (by decide)

/-! ### C10: `AppendContent` follows the tail -/

/-- C10: if the selection sat on the last content row, `AppendContent`
moves it to the new last row and, when the wrapped content no longer fits
the `height - 2` viewport lines, scrolls so the bottom is visible
(`scrolledTop = totalDisplayLines - (height - 2)`); otherwise both the
selection and the scroll position are left unchanged. -/
theorem appendContent_follows_tail (m : TextModel) (rows : List String) :
    (m.selectedLine = (m.content.length : Int) - 1 →
      (m.AppendContent rows).selectedLine =
          ((m.AppendContent rows).content.length : Int) - 1 ∧
      (((m.AppendContent rows).parsedContent.length : Int) >
            (m.AppendContent rows).height - 2 →
        (m.AppendContent rows).scrolledTop =
          ((m.AppendContent rows).parsedContent.length : Int) -
            ((m.AppendContent rows).height - 2)) ∧
      (((m.AppendContent rows).parsedContent.length : Int) ≤
            (m.AppendContent rows).height - 2 →
        (m.AppendContent rows).scrolledTop = m.scrolledTop)) ∧
    (m.selectedLine ≠ (m.content.length : Int) - 1 →
      (m.AppendContent rows).selectedLine = m.selectedLine ∧
      (m.AppendContent rows).scrolledTop = m.scrolledTop) := by
  by_cases hmove : m.selectedLine = (m.content.length : Int) - 1 <;>
    simp only [TextModel.AppendContent, hmove, if_true, if_false, ne_eq,
      not_true_eq_false, not_false_eq_true, true_and, false_and, and_true,
      true_implies, false_implies, if_neg, ite_true, ite_false] <;>
    (try split_ifs) <;>
    simp_all [TextModel.parseContent_scrolledTop, TextModel.parseContent_selectedLine,
      TextModel.parseContent_height, TextModel.parseContent_content] <;>
    omega

/-- C10 witness: appending three rows while the selection sits on the last
of two rows moves the selection to the new last row. -/
theorem appendContent_follows_tail_witness :
    (textTail.selectedLine = (textTail.content.length : Int) - 1) ∧
    (textTail.AppendContent ["c", "d", "e"]).selectedLine =
      ((textTail.AppendContent ["c", "d", "e"]).content.length : Int) - 1 :=
  ⟨by decide, ((appendContent_follows_tail textTail ["c", "d", "e"]).1 (by decide)).1⟩

/-! ### C1 counterexample: `SetContent` does not reset the scroll -/

/-- C1 counterexample: select the last of ten rows (scrolling to 8), then
replace the content by a single row.  `SetContent` leaves `scrolledTop`
at 8, far above `max 0 (totalDisplayLines - height) = 0`, so the claimed
bound fails after a sequence built from the listed public operations. -/
theorem scroll_bound_broken_by_setContent :
    ((tmTen.SelectLastLine).SetContent [["a"]]).scrolledTop = 8 ∧
    ¬ (((tmTen.SelectLastLine).SetContent [["a"]]).scrolledTop ≤
        max 0 ((((tmTen.SelectLastLine).SetContent [["a"]]).sortedContent.length : Int) -
          ((tmTen.SelectLastLine).SetContent [["a"]]).height)) := by decide

/-! ### C3: wrap round-trip -/

theorem goSplit_eq_single {sep : Char} :
    ∀ {l : List Char}, sep ∉ l → goSplit sep l = [l] := by
  intro l
  induction l with
  | nil => intro _; rfl
  | cons c rest ih =>
    intro h
    have hc : c ≠ sep := fun hEq => h (hEq ▸ List.mem_cons_self c rest)
    have hrest : sep ∉ rest := fun hm => h (List.mem_cons_of_mem c hm)
    simp [goSplit, ih hrest, hc]

theorem wwFold_spaceless (limit : Int) :
    ∀ (cs w : List Char), (∀ c ∈ cs, c.isWhitespace = false ∧ c ≠ '-') →
      List.foldl (wwStep limit) ⟨[], 0, [], w⟩ cs = ⟨[], 0, [], w ++ cs⟩ := by
  intro cs
  induction cs with
  | nil => intro w _; simp
  | cons c rest ih =>
    intro w h
    have hc := h c (List.mem_cons_self c rest)
    have hrest : ∀ x ∈ rest, x.isWhitespace = false ∧ x ≠ '-' :=
      fun x hx => h x (List.mem_cons_of_mem c hx)
    have hnl : c ≠ '\n' := by
      intro hEq
      rw [hEq] at hc
      exact absurd hc.1 (by decide)
    have hstep : wwStep limit ⟨[], 0, [], w⟩ c = ⟨[], 0, [], w ++ [c]⟩ := by
      unfold wwStep
      rw [if_neg hnl, if_neg (by simp [hc.1]), if_neg hc.2, if_neg (by simp; omega)]
    rw [List.foldl_cons, hstep, ih (w ++ [c]) hrest, List.append_assoc]
    rfl

theorem wordwrapRun_spaceless (limit : Int) (cs : List Char)
    (h : ∀ c ∈ cs, c.isWhitespace = false ∧ c ≠ '-') :
    wordwrapRun limit cs = cs := by
  unfold wordwrapRun
  split
  · rfl
  · rw [wwFold_spaceless limit cs [] h]
    cases cs with
    | nil => rfl
    | cons c rest => simp [wwAddWord, wwAddSpace]

theorem hardSplitLoop_spec (W : Nat) (hW : 0 < W) (w : List Char) :
    ∀ n i z, w.length - i = n → i < w.length - W →
      ((hardSplitLoop W w i z).1.flatten ++ w.drop ((hardSplitLoop W w i z).2 + W)
          = w.drop i) ∧
      (∀ p ∈ (hardSplitLoop W w i z).1, p.length = W) ∧
      w.length ≤ (hardSplitLoop W w i z).2 + W + W ∧
      (hardSplitLoop W w i z).2 + W < w.length := by
  intro n
  induction n using Nat.strong_induction_on with
  | _ n ih =>
    intro i z hn hi
    have hchunk : goSlice w i (i + W) ++ w.drop (i + W) = w.drop i := by
      unfold goSlice
      have h1 : i + W - i = W := by omega
      have h2 : w.drop (i + W) = (w.drop i).drop W := by
        simp [List.drop_drop, Nat.add_comm]
      rw [h1, h2, List.take_append_drop]
    have hchunklen : (goSlice w i (i + W)).length = W := by
      unfold goSlice
      simp
      omega
    have hunfold : hardSplitLoop W w i z =
        (goSlice w i (i + W) :: (hardSplitLoop W w (i + W) i).1,
         (hardSplitLoop W w (i + W) i).2) := by
      rw [hardSplitLoop, dif_pos ⟨hW, hi⟩]
    by_cases h2 : i + W < w.length - W
    · have hrec := ih (w.length - (i + W)) (by omega) (i + W) i rfl h2
      rw [hunfold]
      dsimp only
      refine ⟨?_, ?_, hrec.2.2.1, hrec.2.2.2⟩
      · simp only [List.flatten_cons, List.append_assoc]
        rw [hrec.1, hchunk]
      · intro p hp
        rcases List.mem_cons.mp hp with hp | hp
        · rw [hp, hchunklen]
        · exact hrec.2.1 p hp
    · have hinner : hardSplitLoop W w (i + W) i = ([], i) := by
        rw [hardSplitLoop, dif_neg (fun hand => h2 hand.2)]
      rw [hunfold, hinner]
      dsimp only
      refine ⟨?_, ?_, by omega, by omega⟩
      · simpa using hchunk
      · intro p hp
        rcases List.mem_cons.mp hp with hp | hp
        · rw [hp, hchunklen]
        · simp at hp

theorem hardSplitPiece_spec (W : Int) (hW : 1 ≤ W) (wl : List Char) :
    (hardSplitPiece W wl).flatten = wl ∧
    ∀ p ∈ (hardSplitPiece W wl).dropLast, (p.length : Int) = W := by
  unfold hardSplitPiece
  split
  · have h0 : 0 < wl.length - W.toNat := by omega
    have spec := hardSplitLoop_spec W.toNat (by omega) wl (wl.length - 0) 0 0 rfl h0
    constructor
    · rw [List.flatten_append, List.flatten_cons, List.flatten_nil, List.append_nil]
      simpa using spec.1
    · intro p hp
      rw [List.dropLast_concat] at hp
      have := spec.2.1 p hp
      omega
  · refine ⟨by simp, ?_⟩
    intro p hp
    simp at hp

/-- C3 (amended): for every wrap width `W ≥ 1` and every row that is a
single token (no whitespace and no breakpoint rune), concatenating the
display lines `parseContent` produces for that row reproduces the row
exactly, and every produced line except the last has exactly `W` runes
(hard-splitting).  For rows with wrapped whitespace the exact round trip
fails: the wrapper drops the whitespace pending at each inserted break
(see the counterexample). -/
theorem wrap_roundTrip_token (W : Int) (hW : 1 ≤ W) (row : List Char)
    (hrow : ∀ c ∈ row, c.isWhitespace = false ∧ c ≠ '-') :
    (rowDisplayLines W row).flatten = row ∧
    ∀ p ∈ (rowDisplayLines W row).dropLast, (p.length : Int) = W := by
  have hnl : '\n' ∉ row := by
    intro hmem
    exact absurd (hrow _ hmem).1 (by decide)
  unfold rowDisplayLines
  rw [wordwrapRun_spaceless W row hrow, goSplit_eq_single hnl]
  simpa using hardSplitPiece_spec W hW row

/-- C3 witness: the token `abcde` at width 2 hard-splits into lines of
exactly two runes plus a remainder, and concatenation restores it. -/
theorem wrap_roundTrip_token_witness :
    (rowDisplayLines 2 "abcde".data).flatten = "abcde".data ∧
    ∀ p ∈ (rowDisplayLines 2 "abcde".data).dropLast, (p.length : Int) = 2 :=
  wrap_roundTrip_token 2 (by decide) "abcde".data (by decide)

/-- C3 counterexample: the row `"ab cd"` at width 4 (inner width 2) wraps
to the display lines `ab` and `cd`; the space pending at the break is
dropped, so concatenating the display lines yields `abcd`, not the
original row text. -/
theorem wrap_roundTrip_counterexample :
    (textSpaced.parseContent).parsedContent = ["ab", "cd"] ∧
    String.join (textSpaced.parseContent).parsedContent ≠ "ab cd" := by decide

/-! ### C8: scenario with 100 rows at height 10 -/

set_option maxRecDepth 10000 in
/-- C8 counterexample: with 100 one-line rows at height 10,
`SetSelectedLine(99)` puts `scrolledTop` at 92, not at
`totalDisplayLines - height = 90`, and in particular above it. -/
theorem setSelection_scroll_above_claimed_bound :
    (textHundred.SetSelectedLine 99).scrolledTop = 92 ∧
    ((textHundred.SetSelectedLine 99).parsedContent.length : Int) -
        (textHundred.SetSelectedLine 99).height = 90 ∧
    ((textHundred.SetSelectedLine 99).parsedContent.length : Int) -
        (textHundred.SetSelectedLine 99).height <
      (textHundred.SetSelectedLine 99).scrolledTop := by decide

set_option maxRecDepth 10000 in
/-- C8 (amended): with 100 one-line rows at height 10,
`SetSelectedLine(99)` moves `scrolledTop` to exactly
`totalDisplayLines - (height - 2) = 92`, the maximum scroll position of a
viewport that displays `height - 2` lines, and never beyond it. -/
theorem setSelection_scroll_exact_bottom :
    (textHundred.SetSelectedLine 99).scrolledTop =
      ((textHundred.SetSelectedLine 99).parsedContent.length : Int) -
        ((textHundred.SetSelectedLine 99).height - 2) := by decide

/-! ### C6: `SetFilter` semantics -/

theorem rowMatch_eq_any (line : List String) (flt : String) (cols : List Int) :
    rowMatch line flt cols
      = cols.any (fun c => strContains (strToLower (getCell line c)) flt) := by
  induction cols with
  | nil => rfl
  | cons c cs ih =>
    rw [rowMatch, List.any_cons, ← ih]
    cases h : strContains (strToLower (getCell line c)) flt <;> simp [h]

theorem filterLoop_eq_filter (flt : String) (cols : List Int) :
    ∀ content, filterLoop flt cols content
      = content.filter (fun line => rowMatch line flt cols) := by
  intro content
  induction content with
  | nil => rfl
  | cons line rest ih =>
    rw [filterLoop, List.filter_cons]
    split <;> simp_all

/-- C6: `SetFilter(text)` makes the filtered rows exactly the raw content
rows some configured filter column of which contains `text` as a
case-insensitive substring, preserving the original order; empty text
selects the whole content (so a later `SetFilter("")` restores it); the
call resets both the scroll position and the selection to 0 and re-sorts
the new filtered rows by the current sort parameters. -/
theorem setFilter_spec (m : TableModel) (text : String) :
    (text ≠ "" →
      (m.SetFilter text).filteredContent =
        m.content.filter
          (fun row => m.filterColums.any
            (fun c => strContains (strToLower (getCell row c)) (strToLower text)))) ∧
    (text = "" → (m.SetFilter text).filteredContent = m.content) ∧
    (m.SetFilter text).scrolledTop = 0 ∧
    (m.SetFilter text).selectedLine = 0 ∧
    (m.SetFilter text).sortedContent =
      (if m.sortOrder = .SortUnsorted then (m.SetFilter text).filteredContent
       else ((m.SetFilter text).filteredContent).insertionSort
              (rowLe m.sortByCol m.sortOrder)) ∧
    ((m.SetFilter text).SetFilter "").filteredContent = m.content := by
  refine ⟨?_, ?_, rfl, rfl, ?_, ?_⟩
  · intro ht
    simp only [TableModel.SetFilter, TableModel.filterContent, if_neg ht]
    rw [filterLoop_eq_filter]
    simp [rowMatch_eq_any]
  · intro ht
    simp [TableModel.SetFilter, TableModel.filterContent, ht]
  · simp [TableModel.SetFilter, TableModel.sortFilteredContent]
  · simp [TableModel.SetFilter, TableModel.filterContent]

/-- C6 witness: filtering ten identical rows by `"x"` keeps exactly the
matching rows and resets the scroll position. -/
theorem setFilter_spec_witness :
    (tmTen.SetFilter "x").filteredContent =
      tmTen.content.filter
        (fun row => tmTen.filterColums.any
          (fun c => strContains (strToLower (getCell row c)) (strToLower "x"))) ∧
    (tmTen.SetFilter "x").scrolledTop = 0 :=
  ⟨(setFilter_spec tmTen "x").1 (by decide), (setFilter_spec tmTen "x").2.2.1⟩

/-! ### C7: sort reversal and sort reset -/

theorem getCell_inj_of_pairwise {col : Int} {l : List (List String)}
    (hl : l.Pairwise (fun a b => getCell a col ≠ getCell b col)) :
    ∀ a ∈ l, ∀ b ∈ l, getCell a col = getCell b col → a = b := by
  induction hl with
  | nil => intro a ha; simp at ha
  | @cons x t hx _ ih =>
    intro a ha b hb hab
    rcases List.mem_cons.mp ha with ha1 | ha2
    · rcases List.mem_cons.mp hb with hb1 | hb2
      · rw [ha1, hb1]
      · rw [ha1] at hab
        exact absurd hab (hx b hb2)
    · rcases List.mem_cons.mp hb with hb1 | hb2
      · rw [hb1] at hab
        exact absurd hab.symm (hx a ha2)
      · exact ih a ha2 b hb2 hab

theorem eq_of_perm_of_sorted_on {α : Type} {r : α → α → Prop} :
    ∀ {l₁ l₂ : List α},
      (∀ a ∈ l₁, ∀ b ∈ l₁, r a b → r b a → a = b) →
      l₁.Perm l₂ → l₁.Sorted r → l₂.Sorted r → l₁ = l₂ := by
  intro l₁
  induction l₁ with
  | nil =>
    intro l₂ _ hp _ _
    exact hp.nil_eq
  | cons a t₁ ih =>
    intro l₂ anti hp h₁ h₂
    cases l₂ with
    | nil => exact absurd hp.symm.nil_eq (by simp)
    | cons b t₂ =>
      have ha2 : a ∈ b :: t₂ := hp.mem_iff.mp (List.mem_cons_self a t₁)
      have hb1 : b ∈ a :: t₁ := hp.symm.mem_iff.mp (List.mem_cons_self b t₂)
      have hs₁ := List.sorted_cons.mp h₁
      have hs₂ := List.sorted_cons.mp h₂
      have hab : a = b := by
        rcases List.mem_cons.mp ha2 with h | h
        · exact h
        · rcases List.mem_cons.mp hb1 with h' | h'
          · exact h'.symm
          · exact anti a (List.mem_cons_self a t₁) b hb1 (hs₁.1 b h') (hs₂.1 a h)
      subst hab
      have anti' : ∀ x ∈ t₁, ∀ y ∈ t₁, r x y → r y x → x = y :=
        fun x hx y hy => anti x (List.mem_cons_of_mem a hx) y (List.mem_cons_of_mem a hy)
      rw [ih anti' hp.cons_inv hs₁.2 hs₂.2]

theorem insertionSort_desc_eq_reverse (col : Int) (l : List (List String))
    (hd : l.Pairwise (fun a b => getCell a col ≠ getCell b col)) :
    l.insertionSort (rowLe col .SortDescending)
      = (l.insertionSort (rowLe col .SortAscendig)).reverse := by
  haveI : IsTrans (List String) (rowLe col .SortAscendig) :=
    ⟨fun _ _ _ hab hbc => le_trans hab hbc⟩
  haveI : IsTotal (List String) (rowLe col .SortAscendig) :=
    ⟨fun a b => le_total (getCell a col) (getCell b col)⟩
  haveI : IsTrans (List String) (rowLe col .SortDescending) :=
    ⟨fun _ _ _ hab hbc => le_trans hbc hab⟩
  haveI : IsTotal (List String) (rowLe col .SortDescending) :=
    ⟨fun a b => le_total (getCell b col) (getCell a col)⟩
  have hsortA := List.sorted_insertionSort (rowLe col .SortAscendig) l
  have hsortD := List.sorted_insertionSort (rowLe col .SortDescending) l
  have hpermA := List.perm_insertionSort (rowLe col .SortAscendig) l
  have hpermD := List.perm_insertionSort (rowLe col .SortDescending) l
  have hinj := getCell_inj_of_pairwise hd
  have anti : ∀ a ∈ l.insertionSort (rowLe col .SortDescending),
      ∀ b ∈ l.insertionSort (rowLe col .SortDescending),
      rowLe col .SortDescending a b → rowLe col .SortDescending b a → a = b := by
    intro a ha b hb h1 h2
    exact hinj a (hpermD.mem_iff.mp ha) b (hpermD.mem_iff.mp hb) (le_antisymm h2 h1)
  have hsortRev :
      List.Sorted (rowLe col .SortDescending)
        (l.insertionSort (rowLe col .SortAscendig)).reverse := by
    apply List.pairwise_reverse.mpr
    exact hsortA.imp (fun {a b} h => h)
  have hpermRev :
      (l.insertionSort (rowLe col .SortDescending)).Perm
        ((l.insertionSort (rowLe col .SortAscendig)).reverse) :=
    hpermD.trans (hpermA.symm.trans (List.reverse_perm _).symm)
  exact eq_of_perm_of_sorted_on anti hpermRev hsortD hsortRev

/-- C7: for a valid column, sorting ascending and then descending on rows
with pairwise distinct keys in that column yields exactly the reversed
sequence, and `Sort(col, SortUnsorted)` makes the sorted rows identical to
the filtered rows in filter order. -/
theorem sort_reversal_and_reset (m : TableModel) (col : Int)
    (hcol : 0 ≤ col ∧ col ≤ (m.headers.length : Int) - 1) :
    (m.filteredContent.Pairwise (fun a b => getCell a col ≠ getCell b col) →
      ((m.Sort col .SortAscendig).Sort col .SortDescending).sortedContent
        = ((m.Sort col .SortAscendig).sortedContent).reverse) ∧
    (m.Sort col .SortUnsorted).sortedContent = m.filteredContent := by
  have hg : ¬ (col > (m.headers.length : Int) - 1) := not_lt.mpr hcol.2
  have h1 : m.Sort col .SortAscendig =
      { m with
        sortByCol := col
        sortOrder := .SortAscendig
        sortedContent := m.filteredContent.insertionSort (rowLe col .SortAscendig) } := by
    simp [TableModel.Sort, TableModel.sortFilteredContent, hg]
  constructor
  · intro hd
    have key := insertionSort_desc_eq_reverse col m.filteredContent hd
    have h2 : (m.Sort col .SortAscendig).Sort col .SortDescending =
        { m with
          sortByCol := col
          sortOrder := .SortDescending
          sortedContent := m.filteredContent.insertionSort (rowLe col .SortDescending) } := by
      rw [h1]
      simp [TableModel.Sort, TableModel.sortFilteredContent, hg]
    rw [h2, h1]
    exact key
  · simp [TableModel.Sort, hg]

/-- C7 witness: three rows with distinct keys in column 0 sort ascending
and then descending into exactly reversed sequences, and an unsorted sort
restores filter order. -/
theorem sort_reversal_and_reset_witness :
    ((tmSortable.Sort 0 .SortAscendig).Sort 0 .SortDescending).sortedContent
      = ((tmSortable.Sort 0 .SortAscendig).sortedContent).reverse ∧
    (tmSortable.Sort 0 .SortUnsorted).sortedContent = tmSortable.filteredContent :=
  ⟨(sort_reversal_and_reset tmSortable 0 (by decide)).1 (by decide),
   (sort_reversal_and_reset tmSortable 0 (by decide)).2⟩

/-! ### C2: selection visibility -/

/-- C2 counterexample: at height 3 an in-range `SetSelectedLine(1)` puts
`scrolledTop` at 2, above the selected row 1, so the selection intersects
no window starting at `scrolledTop` — not even the full-height window
`[scrolledTop, scrolledTop + height)` — and `scrolledTop ≠ 0`, so the
all-content-fits escape clause fails as well. -/
theorem selection_visibility_broken_at_small_height :
    (tmShort.SetSelectedLine 1).selectedLine = 1 ∧
    (tmShort.SetSelectedLine 1).scrolledTop = 2 ∧
    ¬ ((tmShort.SetSelectedLine 1).scrolledTop ≤ (tmShort.SetSelectedLine 1).selectedLine ∧
       (tmShort.SetSelectedLine 1).selectedLine <
         (tmShort.SetSelectedLine 1).scrolledTop + (tmShort.SetSelectedLine 1).height) ∧
    (tmShort.SetSelectedLine 1).scrolledTop ≠ 0 := by decide

set_option maxHeartbeats 2000000 in
/-- C2 (amended): provided the viewport can show at least one content row
(effective height at least 4), after `SetSelectedLine` with an in-range
argument and after `SelectLastLine` on non-empty filtered content the
selected row lies inside the displayed window
`[scrolledTop, scrolledTop + (effHeight - 3))`; after `PageScroll` with
`moveSelected` and a non-zero page count the same holds, except that the
content may entirely fit the viewport with `scrolledTop = 0`. -/
theorem selection_visible_after_ops (m : TableModel) (h4 : 4 ≤ m.effHeight) :
    (∀ line : Int, 0 ≤ line → line < (m.filteredContent.length : Int) →
      (m.SetSelectedLine line).selectionVisible) ∧
    (1 ≤ (m.filteredContent.length : Int) → (m.SelectLastLine).selectionVisible) ∧
    (∀ num : Int, num ≠ 0 →
      (m.PageScroll num true).selectionVisible ∨
        (((m.PageScroll num true).filteredContent.length : Int) ≤
            (m.PageScroll num true).effHeight - 3 ∧
          (m.PageScroll num true).scrolledTop = 0)) := by
  unfold TableModel.effHeight at h4
  have hset : ∀ line : Int, 0 ≤ line → line < (m.filteredContent.length : Int) →
      (m.SetSelectedLine line).selectionVisible := by
    intro line h0 hlt
    unfold TableModel.SetSelectedLine
    rw [if_pos ⟨hlt, h0⟩]
    unfold TableModel.selectionVisible TableModel.effHeight
    dsimp only
    split_ifs at h4 ⊢ <;> omega
  refine ⟨hset, ?_, ?_⟩
  · intro hlen
    unfold TableModel.SelectLastLine
    exact hset _ (by omega) (by omega)
  · intro num hnum
    unfold TableModel.PageScroll TableModel.selectionVisible TableModel.effHeight
    simp only [eq_self_iff_true, if_true]
    split_ifs at h4 ⊢ <;> first | omega | (dsimp only; omega)

/-- C2 witness: on ten rows at height 5 (effective height 5),
`SetSelectedLine(7)` leaves the selection inside the displayed window. -/
theorem selection_visible_after_ops_witness :
    (tmTen.SetSelectedLine 7).selectionVisible :=
  (selection_visible_after_ops tmTen (by decide)).1 7 (by decide) (by decide)

/-! ### C1: the scroll bound under operation sequences -/

theorem sortFilteredContent_length (m : TableModel) :
    m.sortFilteredContent.length = m.filteredContent.length := by
  unfold TableModel.sortFilteredContent
  split
  · rfl
  · exact List.length_insertionSort _ _

theorem TInv_update (m : TableModel) (h : m.wellFormed) (line s : Int)
    (h0 : 0 ≤ s)
    (h1 : s ≤ max 0 ((m.filteredContent.length : Int) - (m.effHeight - 3))) :
    ({ m with selectedLine := line, scrolledTop := s } : TableModel).TInv :=
  ⟨⟨h.1, h.2⟩, h0, h1⟩

theorem tinv_setSelectedLine (m : TableModel) (h : m.TInv) (line : Int) :
    (m.SetSelectedLine line).TInv := by
  obtain ⟨hwf, hs0, hs1⟩ := h
  unfold TableModel.SetSelectedLine
  split_ifs with hin hge hflt hlt
  · have heff : m.effHeight = m.height := by
      unfold TableModel.effHeight
      rw [if_pos hflt]
    exact TInv_update m hwf _ _ (by omega) (by omega)
  · have heff : m.effHeight = m.height - 1 := by
      unfold TableModel.effHeight
      rw [if_neg hflt]
    exact TInv_update m hwf _ _ (by omega) (by omega)
  · exact TInv_update m hwf _ _ (by omega) (by omega)
  · exact TInv_update m hwf _ _ hs0 hs1
  · exact ⟨hwf, hs0, hs1⟩

theorem tinv_viewScroll (m : TableModel) (h : m.TInv) (num : Int) :
    (m.ViewScroll num).TInv := by
  obtain ⟨hwf, hs0, hs1⟩ := h
  have he : m.effHeight = m.height ∨ m.effHeight = m.height - 1 := by
    unfold TableModel.effHeight
    split <;> simp
  unfold TableModel.ViewScroll
  split_ifs <;>
    first
      | exact ⟨hwf, hs0, hs1⟩
      | exact TInv_update m hwf _ _ (by omega) (by omega)

theorem tinv_pageScroll (m : TableModel) (h : m.TInv) (num : Int) (ms : Bool) :
    (m.PageScroll num ms).TInv := by
  obtain ⟨hwf, hs0, hs1⟩ := h
  simp only [TableModel.PageScroll]
  split_ifs <;> exact TInv_update m hwf _ _ (by omega) (by omega)

theorem tinv_setFilter (m : TableModel) (text : String) :
    (m.SetFilter text).TInv := by
  refine ⟨⟨rfl, ?_⟩, le_refl 0, le_max_left 0 _⟩
  exact sortFilteredContent_length _

theorem filterContent_append_length (m : TableModel) (rows : List (List String)) :
    (TableModel.filterContent { m with content := m.content ++ rows }).length
      = m.filterContent.length
        + (TableModel.filterContent { m with content := rows }).length := by
  unfold TableModel.filterContent
  split_ifs
  · simp
  · simp [filterLoop_eq_filter]

theorem tinv_appendContent (m : TableModel) (h : m.TInv) (rows : List (List String)) :
    (m.AppendContent rows).TInv := by
  obtain ⟨⟨hwf1, _⟩, hs0, hs1⟩ := h
  have hlen := filterContent_append_length m rows
  refine ⟨⟨rfl, sortFilteredContent_length _⟩, hs0, ?_⟩
  show m.scrolledTop ≤
    max 0 (((TableModel.filterContent { m with content := m.content ++ rows }).length : Int)
      - (m.effHeight - 3))
  rw [hwf1] at hs1
  omega

theorem tinv_applyOp (m : TableModel) (h : m.TInv) (op : TOp) :
    (m.applyOp op).TInv := by
  cases op with
  | setSelectedLine line => exact tinv_setSelectedLine m h line
  | selectLastLine => exact tinv_setSelectedLine m h _
  | viewScroll num => exact tinv_viewScroll m h num
  | pageScroll num ms => exact tinv_pageScroll m h num ms
  | setFilter text => exact tinv_setFilter m text
  | appendContent rows => exact tinv_appendContent m h rows

theorem tinv_applyOps (m : TableModel) (h : m.TInv) (ops : List TOp) :
    (m.applyOps ops).TInv := by
  induction ops generalizing m with
  | nil => exact h
  | cons op rest ih => exact ih _ (tinv_applyOp m h op)

/-- C1 (amended): starting from any well-formed table state whose scroll
satisfies the bound, every sequence of `SetSelectedLine`, `SelectLastLine`,
`ViewScroll`, `PageScroll`, `SetFilter` and `AppendContent` operations
keeps `0 ≤ scrolledTop ≤ max 0 (totalDisplayLines - (effHeight - 3))`,
where `totalDisplayLines` is the number of (filtered, sorted) display rows
and the viewport shows `effHeight - 3` of them.  `SetContent` must be
excluded: it does not reset `scrolledTop`, so shrinking the content can
leave the scroll position above any bound (see the counterexample). -/
theorem scroll_bound_invariant (m : TableModel) (h : m.TInv) (ops : List TOp) :
    0 ≤ (m.applyOps ops).scrolledTop ∧
    (m.applyOps ops).scrolledTop ≤
      max 0 (((m.applyOps ops).sortedContent.length : Int) -
        ((m.applyOps ops).effHeight - 3)) := by
  obtain ⟨⟨_, hlen⟩, hs0, hs1⟩ := tinv_applyOps m h ops
  refine ⟨hs0, ?_⟩
  rw [hlen]
  exact hs1

/-- C1 witness: a concrete operation sequence on the ten-row model keeps
the scroll bound. -/
theorem scroll_bound_invariant_witness :
    tmTen.TInv ∧
    (0 ≤ (tmTen.applyOps
            [TOp.pageScroll 1 true, TOp.setFilter "x", TOp.viewScroll (-1)]).scrolledTop ∧
      (tmTen.applyOps
          [TOp.pageScroll 1 true, TOp.setFilter "x", TOp.viewScroll (-1)]).scrolledTop ≤
        max 0 (((tmTen.applyOps
            [TOp.pageScroll 1 true, TOp.setFilter "x", TOp.viewScroll (-1)]).sortedContent.length : Int) -
          ((tmTen.applyOps
            [TOp.pageScroll 1 true, TOp.setFilter "x", TOp.viewScroll (-1)]).effHeight - 3))) :=
  ⟨by decide, scroll_bound_invariant tmTen (by decide)
    [TOp.pageScroll 1 true, TOp.setFilter "x", TOp.viewScroll (-1)]⟩
